import Mathlib

/-!
# Shallow embedding of `zipline/data/bundles/csvdir.py`

The module ingests per-symbol CSV price files into a backtesting store.
We embed the `ingest` closure produced by `csvdir_equities`:

* dates are modelled as `Nat` (days); `pandas.Timedelta(days=1)` is `+ 1`;
  all dates are timezone-naive, so `tz_localize(None)` is the identity;
* a data cell is `Option Rat`, `none` standing for a missing value (NaN);
* a parsed CSV (`pandas.read_csv` result) is a `Frame`: a column count and a
  list of (date, row) pairs; `.sort_index()` is a stable sort on the date key;
* the process environment, `os.path.isdir`, `os.listdir` and the
  `pandas.read_csv` parser are external effects, modelled by a `World` oracle;
  `readCsv path = none` models `read_csv` raising (the bare `except:` path);
* the writers are external collaborators: the `done` result of `ingest`
  carries exactly the arguments handed to the selected bar writer, the asset
  db writer and the adjustment writer; the `exit` result models `sys.exit`
  firing before any writer call.

`df.reindex(sessions)` requires a duplicate-free index in pandas (it raises
otherwise); `lookupRow` picks the first matching row, which agrees with
pandas on every duplicate-free frame.
-/

namespace Csvdir

abbrev Date := Nat

/-- A parsed CSV file: a date-indexed table. `ncols` is the number of
non-index columns; a cell `none` is a missing value (NaN). -/
structure Frame where
  ncols : Nat
  rows : List (Date × List (Option Rat))
deriving DecidableEq, Repr

/-- `df.sort_index()`: sort the rows ascending by date. -/
def Frame.sortIndex (f : Frame) : Frame :=
  { f with rows := List.insertionSort (fun a b => a.1 ≤ b.1) f.rows }

/-- `df.index[0]` (on a non-empty frame). -/
def Frame.firstDate (f : Frame) : Date :=
  ((f.rows.head?).map Prod.fst).getD 0

/-- `df.index[-1]` (on a non-empty frame). -/
def Frame.lastDate (f : Frame) : Date :=
  ((f.rows.getLast?).map Prod.fst).getD 0

/-- Row lookup by date label (first match, as pandas on a unique index). -/
def lookupRow (rows : List (Date × List (Option Rat))) (d : Date) :
    Option (List (Option Rat)) :=
  (rows.find? (fun r => r.1 == d)).map Prod.snd

/-- `df.reindex(sessions).fillna(0.0)`: one output row per requested date, in
order; a date present in `f` keeps its row with NaN cells replaced by `0.0`;
a date absent from `f` becomes an all-`0.0` row across all columns. -/
def reindexFill (f : Frame) (sessions : List Date) : List (Date × List Rat) :=
  sessions.map fun d =>
    (d, match lookupRow f.rows d with
        | some row => row.map (fun c => c.getD 0)
        | none => List.replicate f.ncols (0 : Rat))

/-- The exchange calendar collaborator: its full ordered session list. -/
structure Calendar where
  sessions : List Date

/-- `calendar.sessions_in_range(a, b)`: the sessions within `[a, b]`,
inclusive, in calendar order (the result of `.tz_localize(None)` is the same
list, dates being naive here). -/
def Calendar.sessionsInRange (cal : Calendar) (a b : Date) : List Date :=
  cal.sessions.filter (fun d => decide (a ≤ d ∧ d ≤ b))

/-- The suffix `.csv` as a character list. -/
def csvSuffix : List Char := ['.', 'c', 's', 'v']

/-- `startsWithL s p`: `p` is a leading segment of `s`. -/
def startsWithL : List Char → List Char → Bool
  | _, [] => true
  | [], _ :: _ => false
  | a :: s, b :: p => a == b && startsWithL s p

/-- `item.split('.csv')[0]`: the characters before the first occurrence of
`.csv` (the whole string when it never occurs). -/
def splitFirstCsv : List Char → List Char
  | [] => []
  | c :: rest =>
    if startsWithL (c :: rest) csvSuffix then [] else c :: splitFirstCsv rest

/-- `item.endswith('.csv')`. -/
def endsCsv (s : String) : Bool :=
  startsWithL s.data.reverse csvSuffix.reverse

/-- String form of `item.split('.csv')[0]`. -/
def stripCsv (s : String) : String := ⟨splitFirstCsv s.data⟩

/-- Python string `<=`: lexicographic comparison by code point. -/
def charsLe : List Char → List Char → Bool
  | [], _ => true
  | _ :: _, [] => false
  | a :: s, b :: t =>
    if a.toNat < b.toNat then true
    else if b.toNat < a.toNat then false
    else charsLe s t

def strLe (a b : String) : Bool := charsLe a.data b.data

/-- The ordering used by `sorted(...)` on symbol names. -/
def SymLe (a b : String) : Prop := strLe a b = true

instance : DecidableRel SymLe := fun a b => decEq (strLe a b) true

/-- `sorted(item.split('.csv')[0] for item in listing if item.endswith('.csv'))`.
Python's `sorted` is modelled by insertion sort; since the order is total,
transitive and antisymmetric, every correct sort yields the same list. -/
def discover (listing : List String) : List String :=
  List.insertionSort SymLe ((listing.filter endsCsv).map stripCsv)

/-- `os.path.join(csvdir, '%s.csv' % symbol)` (POSIX join). -/
def csvPath (csvdir symbol : String) : String :=
  csvdir ++ "/" ++ symbol ++ ".csv"

/-- One metadata table entry: (start_date, end_date, auto_close_date, symbol). -/
abbrev MetaRow := Date × Date × Date × String

/-- One row of the table handed to `asset_db_writer.write`, after the
`exchange` column is added. -/
structure EquityRow where
  startDate : Date
  endDate : Date
  autoCloseDate : Date
  symbol : String
  exchange : String
deriving DecidableEq, Repr

/-- The aligned frame for one symbol: reindex the sorted frame onto the
calendar sessions between its first and last trade, filling with `0.0`. -/
def alignFrame (cal : Calendar) (df : Frame) : List (Date × List Rat) :=
  reindexFill df (cal.sessionsInRange df.firstDate df.lastDate)

/-- The body of one `_pricing_iter` loop iteration for `symbol`: `none` when
the symbol is skipped (parse failure, or an empty parsed frame), otherwise
the aligned frame that is yielded and the metadata entry stored at the
symbol's `sid`. -/
def processSymbol (readCsv : String → Option Frame) (cal : Calendar)
    (csvdir symbol : String) : Option (List (Date × List Rat) × MetaRow) :=
  match readCsv (csvPath csvdir symbol) with
  | none => none
  | some raw =>
    let df := raw.sortIndex
    if df.rows.isEmpty then none
    else some (alignFrame cal df, (df.firstDate, df.lastDate, df.lastDate + 1, symbol))

/-- The lazy sequence `_pricing_iter()` consumed by the bar writer:
`(sid, aligned frame)` pairs, sids being positions in the symbols list,
skipped symbols contributing nothing. -/
def ingestBars (readCsv : String → Option Frame) (cal : Calendar)
    (csvdir : String) (symbols : List String) :
    List (Nat × List (Date × List Rat)) :=
  symbols.enum.filterMap fun p =>
    (processSymbol readCsv cal csvdir p.2).map fun q => (p.1, q.1)

/-- The populated entries of the preallocated metadata table, indexed by sid.
The source preallocates `len(symbols)` rows and assigns `metadata.iloc[sid]`
exactly for the processed symbols; `dropna()` keeps exactly the assigned rows
(unassigned rows hold a `None` symbol), in sid order, with their sid index. -/
def ingestMetadata (readCsv : String → Option Frame) (cal : Calendar)
    (csvdir : String) (symbols : List String) : List (Nat × MetaRow) :=
  symbols.enum.filterMap fun p =>
    (processSymbol readCsv cal csvdir p.2).map fun q => (p.1, q.2)

/-- `metadata['exchange'] = "CSVDIR"`: the finalized equities table. -/
def finalizeMetadata (m : List (Nat × MetaRow)) : List (Nat × EquityRow) :=
  m.map fun p =>
    (p.1, { startDate := p.2.1, endDate := p.2.2.1, autoCloseDate := p.2.2.2.1,
            symbol := p.2.2.2.2, exchange := "CSVDIR" })

/-- The equities table handed to `asset_db_writer.write`. -/
def ingestEquities (readCsv : String → Option Frame) (cal : Calendar)
    (csvdir : String) (symbols : List String) : List (Nat × EquityRow) :=
  finalizeMetadata (ingestMetadata readCsv cal csvdir symbols)

/-- The `logger.error` messages of a completed run: the zero-symbol message,
then one message per unparsable file, in iteration order. -/
def ingestLogs (readCsv : String → Option Frame) (csvdir : String)
    (symbols : List String) : List String :=
  (if symbols.isEmpty then ["no <symbol>.csv files found in " ++ csvdir] else [])
    ++ symbols.filterMap fun s =>
        if (readCsv (csvPath csvdir s)).isNone
        then some ("unable to parse " ++ s ++ ".csv") else none

/-- The external world `ingest` interacts with. -/
structure World where
  /-- `os.environ.get('CSVDIR')`. -/
  envCsvdir : Option String
  /-- `os.path.isdir`. -/
  isDir : String → Bool
  /-- `os.listdir`. -/
  listdir : String → List String
  /-- `pandas.read_csv(path, parse_dates=[0], ...)`; `none` models the parse
  raising, which the bare `except:` turns into a skip. -/
  readCsv : String → Option Frame

/-- Outcome of one `ingest` call.  `exit code logs` models `sys.exit(code)`
fired before any writer was invoked; `done` records, for a completed run,
the error log, which bar writer was selected, and the exact arguments passed
to the bar writer, `asset_db_writer.write` and
`adjustment_writer.write(splits=None, dividends=None)`. -/
inductive IngestResult where
  | exit (code : Nat) (errorLogs : List String)
  | done (errorLogs : List String) (usedMinuteWriter : Bool)
         (bars : List (Nat × List (Date × List Rat)))
         (equities : List (Nat × EquityRow))
         (splits dividends : Option Unit)
deriving DecidableEq

set_option linter.unusedVariables false in
/-- The `ingest` closure returned by `csvdir_equities(tframe, ...)`.  The
`environ` argument mirrors the Python parameter of the same name; the body
reads `os.environ` (`w.envCsvdir`) instead.  `if not csvdir` is Python
truthiness: it fires on the unset variable and on the empty string alike. -/
def ingest (tframe : String) (w : World)
    (environ : List (String × String)) (cal : Calendar) : IngestResult :=
  match w.envCsvdir with
  | none => .exit 1 ["CSVDIR environment variable is not set"]
  | some csvdir =>
    if csvdir = "" then .exit 1 ["CSVDIR environment variable is not set"]
    else if w.isDir csvdir = false then .exit 1 [csvdir ++ " is not a directory"]
    else
      let symbols := discover (w.listdir csvdir)
      .done (ingestLogs w.readCsv csvdir symbols)
        (tframe == "minute")
        (ingestBars w.readCsv cal csvdir symbols)
        (ingestEquities w.readCsv cal csvdir symbols)
        none none

/-! ### Concrete test fixtures

A small world used to evaluate the theorems on concrete inputs: `AAA.csv`
parses to a two-column frame with trades on days 1 and 3 (listed out of
order, with one missing cell), `BBB.csv` parses but is empty, and `CCC.csv`
fails to parse.  The calendar has sessions on days 1, 2, 3 and 4. -/

def demoFrame : Frame :=
  { ncols := 2, rows := [(3, [some 5, none]), (1, [some 2, some 7])] }

def demoCalendar : Calendar := ⟨[1, 2, 3, 4]⟩

def demoWorld : World :=
  { envCsvdir := some "/data"
    isDir := fun p => p == "/data"
    listdir := fun p => if p == "/data" then ["AAA.csv", "CCC.csv", "BBB.csv"] else []
    readCsv := fun p =>
      if p == "/data/AAA.csv" then some demoFrame
      else if p == "/data/BBB.csv" then some { ncols := 2, rows := [] }
      else none }

/-- The single metadata row the demo world produces (for symbol `AAA`). -/
def demoEquityRow : EquityRow :=
  { startDate := 1, endDate := 3, autoCloseDate := 4,
    symbol := "AAA", exchange := "CSVDIR" }

/-- A world whose process environment has no `CSVDIR`. -/
def noEnvWorld : World :=
  { envCsvdir := none, isDir := fun _ => false,
    listdir := fun _ => [], readCsv := fun _ => none }

/-- A world whose source directory exists but holds no `.csv` file. -/
def emptyDirWorld : World :=
  { envCsvdir := some "/data", isDir := fun p => p == "/data",
    listdir := fun _ => [], readCsv := fun _ => none }

/-! ### Order lemmas for symbol sorting -/

theorem charsLe_total : ∀ s t : List Char, charsLe s t = true ∨ charsLe t s = true := by
  intro s
  induction s with
  | nil => intro t; left; rfl
  | cons a s ih =>
    intro t
    cases t with
    | nil => right; rfl
    | cons b t =>
      simp only [charsLe]
      by_cases hab : a.toNat < b.toNat
      · left; rw [if_pos hab]
      · by_cases hba : b.toNat < a.toNat
        · right; rw [if_pos hba]
        · rcases ih t with h | h
          · left; rw [if_neg hab, if_neg hba]; exact h
          · right; rw [if_neg hba, if_neg hab]; exact h

theorem charsLe_trans :
    ∀ s t u : List Char, charsLe s t = true → charsLe t u = true → charsLe s u = true := by
  intro s
  induction s with
  | nil => intro t u _ _; rfl
  | cons a s ih =>
    intro t u h1 h2
    cases t with
    | nil => simp [charsLe] at h1
    | cons b t =>
      cases u with
      | nil => simp [charsLe] at h2
      | cons c u =>
        simp only [charsLe] at h1 h2 ⊢
        by_cases hab : a.toNat < b.toNat
        · by_cases hbc : b.toNat < c.toNat
          · rw [if_pos (by omega)]
          · by_cases hcb : c.toNat < b.toNat
            · rw [if_neg hbc, if_pos hcb] at h2; exact absurd h2 (by simp)
            · rw [if_pos (by omega)]
        · by_cases hba : b.toNat < a.toNat
          · rw [if_neg hab, if_pos hba] at h1; exact absurd h1 (by simp)
          · rw [if_neg hab, if_neg hba] at h1
            by_cases hbc : b.toNat < c.toNat
            · rw [if_pos (by omega)]
            · by_cases hcb : c.toNat < b.toNat
              · rw [if_neg hbc, if_pos hcb] at h2; exact absurd h2 (by simp)
              · rw [if_neg hbc, if_neg hcb] at h2
                rw [if_neg (by omega), if_neg (by omega)]
                exact ih t u h1 h2

instance : IsTotal String SymLe := ⟨fun a b => charsLe_total a.data b.data⟩

instance : IsTrans String SymLe := ⟨fun a b c => charsLe_trans a.data b.data c.data⟩

/-! ### Structure of the per-symbol aligner -/

theorem reindexFill_map_fst (f : Frame) (sessions : List Date) :
    (reindexFill f sessions).map Prod.fst = sessions := by
  induction sessions with
  | nil => rfl
  | cons d rest ih =>
    unfold reindexFill at *
    simp only [List.map_cons]
    rw [ih]

theorem processSymbol_spec (readCsv : String → Option Frame) (cal : Calendar)
    (csvdir symbol : String) :
    processSymbol readCsv cal csvdir symbol = none
      ∨ ∃ raw, readCsv (csvPath csvdir symbol) = some raw ∧ raw.sortIndex.rows ≠ [] ∧
          processSymbol readCsv cal csvdir symbol
            = some (alignFrame cal raw.sortIndex,
                (raw.sortIndex.firstDate, raw.sortIndex.lastDate,
                 raw.sortIndex.lastDate + 1, symbol)) := by
  unfold processSymbol
  cases hr : readCsv (csvPath csvdir symbol) with
  | none => exact Or.inl rfl
  | some raw =>
    by_cases he : raw.sortIndex.rows.isEmpty
    · exact Or.inl (by simp [he])
    · refine Or.inr ⟨raw, rfl, ?_, by simp [he]⟩
      simpa [List.isEmpty_iff] using he

theorem processSymbol_symbol {readCsv : String → Option Frame} {cal : Calendar}
    {csvdir symbol : String} {af : List (Date × List Rat)} {m : MetaRow}
    (h : processSymbol readCsv cal csvdir symbol = some (af, m)) :
    m.2.2.2 = symbol := by
  rcases processSymbol_spec readCsv cal csvdir symbol with hn | ⟨raw, _, _, hs⟩
  · rw [hn] at h; cases h
  · rw [hs] at h
    cases h
    rfl

theorem processSymbol_of_parse {readCsv : String → Option Frame} {cal : Calendar}
    {csvdir s : String} {raw : Frame}
    (hraw : readCsv (csvPath csvdir s) = some raw)
    (hne : raw.sortIndex.rows ≠ []) :
    processSymbol readCsv cal csvdir s
      = some (alignFrame cal raw.sortIndex,
          (raw.sortIndex.firstDate, raw.sortIndex.lastDate,
           raw.sortIndex.lastDate + 1, s)) := by
  unfold processSymbol
  rw [hraw]
  simp [List.isEmpty_iff, hne]

/-! ### Structure of the metadata table and the sid sequence -/

theorem metadata_symbols_eq (readCsv : String → Option Frame) (cal : Calendar)
    (csvdir : String) :
    ∀ l : List (Nat × String),
      ((l.filterMap fun p => (processSymbol readCsv cal csvdir p.2).map fun q => (p.1, q.2)).map
          fun p => p.2.2.2.2)
        = (l.map Prod.snd).filter fun s => (processSymbol readCsv cal csvdir s).isSome := by
  intro l
  induction l with
  | nil => rfl
  | cons p l ih =>
    cases hp : processSymbol readCsv cal csvdir p.2 with
    | none => simp [List.filterMap_cons, hp, List.filter_cons, ih]
    | some q =>
      simp [List.filterMap_cons, hp, List.filter_cons, ih, processSymbol_symbol hp]

theorem ingestEquities_symbols (readCsv : String → Option Frame) (cal : Calendar)
    (csvdir : String) (symbols : List String) :
    (ingestEquities readCsv cal csvdir symbols).map (fun p => p.2.symbol)
      = symbols.filter fun s => (processSymbol readCsv cal csvdir s).isSome := by
  unfold ingestEquities finalizeMetadata ingestMetadata
  rw [List.map_map]
  have h := metadata_symbols_eq readCsv cal csvdir symbols.enum
  rw [List.enum_map_snd] at h
  exact h

theorem map_fst_filterMap_eq {γ : Type} {δ : Type} (g : String → Option γ) (h : γ → δ) :
    ∀ l : List (Nat × String),
      ((l.filterMap fun p => (g p.2).map fun q => (p.1, h q)).map Prod.fst)
        = (l.filter fun p => (g p.2).isSome).map Prod.fst := by
  intro l
  induction l with
  | nil => rfl
  | cons p l ih =>
    cases hg : g p.2 with
    | none => simp [List.filterMap_cons, hg, List.filter_cons, ih]
    | some q => simp [List.filterMap_cons, hg, List.filter_cons, ih]

theorem ingestBars_map_fst (readCsv : String → Option Frame) (cal : Calendar)
    (csvdir : String) (symbols : List String) :
    (ingestBars readCsv cal csvdir symbols).map Prod.fst
      = (symbols.enum.filter fun p =>
          (processSymbol readCsv cal csvdir p.2).isSome).map Prod.fst :=
  map_fst_filterMap_eq _ _ _

theorem ingestEquities_map_fst (readCsv : String → Option Frame) (cal : Calendar)
    (csvdir : String) (symbols : List String) :
    (ingestEquities readCsv cal csvdir symbols).map Prod.fst
      = (symbols.enum.filter fun p =>
          (processSymbol readCsv cal csvdir p.2).isSome).map Prod.fst := by
  unfold ingestEquities finalizeMetadata
  rw [List.map_map]
  exact map_fst_filterMap_eq _ _ _

theorem sid_pairwise (readCsv : String → Option Frame) (cal : Calendar)
    (csvdir : String) (symbols : List String) :
    (((symbols.enum.filter fun p =>
        (processSymbol readCsv cal csvdir p.2).isSome).map Prod.fst).Pairwise (· < ·)) := by
  have hsub : List.Sublist
      ((symbols.enum.filter fun p =>
        (processSymbol readCsv cal csvdir p.2).isSome).map Prod.fst)
      (symbols.enum.map Prod.fst) :=
    (List.filter_sublist _).map Prod.fst
  rw [List.enum_map_fst] at hsub
  exact (List.pairwise_lt_range _).sublist hsub

theorem mem_ingestBars {readCsv : String → Option Frame} {cal : Calendar}
    {csvdir : String} {symbols : List String} {p : Nat × List (Date × List Rat)}
    (hp : p ∈ ingestBars readCsv cal csvdir symbols) :
    ∃ s af m, symbols[p.1]? = some s
      ∧ processSymbol readCsv cal csvdir s = some (af, m) ∧ p.2 = af := by
  unfold ingestBars at hp
  obtain ⟨⟨i, s⟩, hmem, hf⟩ := List.mem_filterMap.mp hp
  cases hps : processSymbol readCsv cal csvdir s with
  | none => rw [hps] at hf; cases hf
  | some q =>
    rw [hps] at hf
    cases hf
    exact ⟨s, q.1, q.2, List.mem_enum_iff_getElem?.mp hmem, by rw [hps], rfl⟩

theorem mem_ingestMetadata {readCsv : String → Option Frame} {cal : Calendar}
    {csvdir : String} {symbols : List String} {q : Nat × MetaRow}
    (hq : q ∈ ingestMetadata readCsv cal csvdir symbols) :
    ∃ s af, symbols[q.1]? = some s
      ∧ processSymbol readCsv cal csvdir s = some (af, q.2) := by
  unfold ingestMetadata at hq
  obtain ⟨⟨i, s⟩, hmem, hf⟩ := List.mem_filterMap.mp hq
  cases hps : processSymbol readCsv cal csvdir s with
  | none => rw [hps] at hf; cases hf
  | some r =>
    rw [hps] at hf
    cases hf
    exact ⟨s, r.1, List.mem_enum_iff_getElem?.mp hmem, by rw [hps]⟩

theorem processSymbol_meta_cal (readCsv : String → Option Frame) (cal cal' : Calendar)
    (csvdir symbol : String) :
    (processSymbol readCsv cal csvdir symbol).map Prod.snd
      = (processSymbol readCsv cal' csvdir symbol).map Prod.snd := by
  unfold processSymbol
  cases readCsv (csvPath csvdir symbol) with
  | none => rfl
  | some raw =>
    by_cases he : raw.sortIndex.rows.isEmpty <;> simp [he]

theorem ingestMetadata_cal (readCsv : String → Option Frame) (cal cal' : Calendar)
    (csvdir : String) (symbols : List String) :
    ingestMetadata readCsv cal csvdir symbols
      = ingestMetadata readCsv cal' csvdir symbols := by
  unfold ingestMetadata
  apply List.filterMap_congr
  intro p _
  have h := processSymbol_meta_cal readCsv cal cal' csvdir p.2
  calc (processSymbol readCsv cal csvdir p.2).map (fun q => (p.1, q.2))
      = ((processSymbol readCsv cal csvdir p.2).map Prod.snd).map (fun m => (p.1, m)) := by
        rw [Option.map_map]; rfl
    _ = ((processSymbol readCsv cal' csvdir p.2).map Prod.snd).map (fun m => (p.1, m)) := by
        rw [h]
    _ = (processSymbol readCsv cal' csvdir p.2).map (fun q => (p.1, q.2)) := by
        rw [Option.map_map]; rfl

/-! ### The claims -/

/-- C1: for every symbol whose CSV parses to a non-empty raw frame, the
aligned frame yielded to the bar writer for its sid has an index exactly
equal to the calendar's trading sessions between the frame's first and last
index date (timezone-naive), and every row at a session date absent from the
raw frame is all `0.0`.  The duplicate-free-index hypothesis is the
precondition pandas' `reindex` itself imposes on the parsed frame. -/
theorem aligned_frame_sessions_and_zero_fill (readCsv : String → Option Frame)
    (cal : Calendar) (csvdir : String) (symbols : List String)
    (i : Nat) (s : String) (raw : Frame)
    (hs : symbols[i]? = some s)
    (hraw : readCsv (csvPath csvdir s) = some raw)
    (hne : raw.sortIndex.rows ≠ [])
    (_hnodup : (raw.sortIndex.rows.map Prod.fst).Nodup) :
    (i, alignFrame cal raw.sortIndex) ∈ ingestBars readCsv cal csvdir symbols
    ∧ (alignFrame cal raw.sortIndex).map Prod.fst
        = cal.sessionsInRange raw.sortIndex.firstDate raw.sortIndex.lastDate
    ∧ ∀ p ∈ alignFrame cal raw.sortIndex,
        p.1 ∉ raw.sortIndex.rows.map Prod.fst → p.2 = List.replicate raw.ncols 0 := by
  refine ⟨?_, ?_, ?_⟩
  · refine List.mem_filterMap.mpr ⟨(i, s), List.mem_enum_iff_getElem?.mpr hs, ?_⟩
    rw [processSymbol_of_parse hraw hne]
    rfl
  · exact reindexFill_map_fst raw.sortIndex _
  · intro p hp habsent
    obtain ⟨d, hd, heq⟩ := List.mem_map.mp hp
    have habs : d ∉ List.map Prod.fst raw.sortIndex.rows := by
      rw [← heq] at habsent
      simpa using habsent
    have hlook : lookupRow raw.sortIndex.rows d = none := by
      unfold lookupRow
      rw [List.find?_eq_none.mpr]
      · rfl
      · intro x hx hbx
        exact habs (List.mem_map.mpr ⟨x, hx, by simpa using hbx⟩)
    rw [← heq]
    show (match lookupRow raw.sortIndex.rows d with
          | some row => List.map (fun c => c.getD 0) row
          | none => List.replicate raw.sortIndex.ncols 0)
        = List.replicate raw.ncols 0
    rw [hlook]
    rfl

/-- C1 witness: in the demo world, symbol `AAA` (sid 0, trades on days 1 and
3) is aligned onto sessions `[1, 2, 3]`, the missing day 2 becoming a zero
row. -/
theorem aligned_frame_sessions_and_zero_fill_witness :
    (0, alignFrame demoCalendar demoFrame.sortIndex)
        ∈ ingestBars demoWorld.readCsv demoCalendar "/data"
            (discover (demoWorld.listdir "/data"))
    ∧ (alignFrame demoCalendar demoFrame.sortIndex).map Prod.fst
        = demoCalendar.sessionsInRange demoFrame.sortIndex.firstDate
            demoFrame.sortIndex.lastDate
    ∧ ∀ p ∈ alignFrame demoCalendar demoFrame.sortIndex,
        p.1 ∉ demoFrame.sortIndex.rows.map Prod.fst
          → p.2 = List.replicate demoFrame.ncols 0 :=
  aligned_frame_sessions_and_zero_fill demoWorld.readCsv demoCalendar "/data"
    (discover (demoWorld.listdir "/data")) 0 "AAA" demoFrame
    (by decide) (by decide) (by decide) (by decide)

/-- C2: on a duplicate-free symbol list (the spec's "Symbol … must be unique
within a run"), the equities table handed to `asset_db_writer.write` carries
exactly the symbols whose CSV parsed to a non-empty frame, in order, and for
every symbol name the table holds exactly one row when that symbol was
discovered and processed, and zero rows otherwise. -/
theorem metadata_one_row_per_parsed_symbol (readCsv : String → Option Frame)
    (cal : Calendar) (csvdir : String) (symbols : List String)
    (hnd : symbols.Nodup) :
    ((ingestEquities readCsv cal csvdir symbols).map (fun p => p.2.symbol)
        = symbols.filter fun s => (processSymbol readCsv cal csvdir s).isSome)
    ∧ ∀ s : String,
        ((ingestEquities readCsv cal csvdir symbols).countP fun p => p.2.symbol == s)
          = if s ∈ symbols ∧ (processSymbol readCsv cal csvdir s).isSome
            then 1 else 0 := by
  refine ⟨ingestEquities_symbols readCsv cal csvdir symbols, fun s => ?_⟩
  have h1 : ((ingestEquities readCsv cal csvdir symbols).countP fun p => p.2.symbol == s)
      = List.count s ((ingestEquities readCsv cal csvdir symbols).map fun p => p.2.symbol) := by
    rw [List.count, List.countP_map]
    rfl
  rw [h1, ingestEquities_symbols readCsv cal csvdir symbols]
  by_cases hok : (processSymbol readCsv cal csvdir s).isSome
  · by_cases hmem : s ∈ symbols
    · rw [if_pos ⟨hmem, hok⟩,
        @List.count_filter String _ _
          (fun t => (processSymbol readCsv cal csvdir t).isSome) s symbols hok,
        List.count_eq_one_of_mem hnd hmem]
    · rw [if_neg (fun hc => hmem hc.1), List.count_eq_zero.mpr
        (fun hc => hmem (List.mem_of_mem_filter hc))]
  · rw [if_neg (fun hc => hok hc.2)]
    have hnot : s ∉ symbols.filter fun t => (processSymbol readCsv cal csvdir t).isSome := by
      intro hc
      have hh := List.of_mem_filter hc
      exact hok hh
    exact List.count_eq_zero.mpr hnot

/-- C2 witness: in the demo world only `AAA` parses non-empty (`BBB` is
empty, `CCC` unparsable), so the equities table holds the single symbol
`AAA` and the per-symbol row counts are as claimed. -/
theorem metadata_one_row_per_parsed_symbol_witness :
    ((ingestEquities demoWorld.readCsv demoCalendar "/data"
          (discover (demoWorld.listdir "/data"))).map (fun p => p.2.symbol)
        = (discover (demoWorld.listdir "/data")).filter
            fun s => (processSymbol demoWorld.readCsv demoCalendar "/data" s).isSome)
    ∧ ∀ s : String,
        ((ingestEquities demoWorld.readCsv demoCalendar "/data"
            (discover (demoWorld.listdir "/data"))).countP fun p => p.2.symbol == s)
          = if s ∈ discover (demoWorld.listdir "/data")
                ∧ (processSymbol demoWorld.readCsv demoCalendar "/data" s).isSome
            then 1 else 0 :=
  metadata_one_row_per_parsed_symbol demoWorld.readCsv demoCalendar "/data"
    (discover (demoWorld.listdir "/data")) (by decide)

/-- C3: every row of the equities table has `auto_close_date` equal to
`end_date` plus one calendar day, `end_date` is the last index date of the
sorted raw frame, and the whole table is unchanged under any other calendar
(session gaps cannot affect the offset). -/
theorem auto_close_is_end_date_plus_one_day (readCsv : String → Option Frame)
    (cal cal' : Calendar) (csvdir : String) (symbols : List String)
    (p : Nat × EquityRow)
    (hmem : p ∈ ingestEquities readCsv cal csvdir symbols) :
    p.2.autoCloseDate = p.2.endDate + 1
    ∧ (∃ raw, readCsv (csvPath csvdir p.2.symbol) = some raw
        ∧ p.2.endDate = raw.sortIndex.lastDate)
    ∧ ingestEquities readCsv cal csvdir symbols
        = ingestEquities readCsv cal' csvdir symbols := by
  have hcal : ingestEquities readCsv cal csvdir symbols
      = ingestEquities readCsv cal' csvdir symbols := by
    unfold ingestEquities
    rw [ingestMetadata_cal readCsv cal cal' csvdir]
  unfold ingestEquities finalizeMetadata at hmem
  obtain ⟨q, hq, hrow⟩ := List.mem_map.mp hmem
  obtain ⟨s, af, hgs, hps⟩ := mem_ingestMetadata hq
  rcases processSymbol_spec readCsv cal csvdir s with hn | ⟨raw, hr, hne, hsome⟩
  · rw [hn] at hps; cases hps
  · rw [hsome] at hps
    have hm : q.2 = (raw.sortIndex.firstDate, raw.sortIndex.lastDate,
        raw.sortIndex.lastDate + 1, s) :=
      (congrArg Prod.snd (Option.some.inj hps)).symm
    subst hrow
    refine ⟨by simp [hm], ⟨raw, ?_, by simp [hm]⟩, hcal⟩
    simpa [hm] using hr

/-- C3 witness: `AAA`'s metadata row has `end_date` 3 (its last trade) and
`auto_close_date` 4, and the equities table is the same under the empty
calendar. -/
theorem auto_close_is_end_date_plus_one_day_witness :
    demoEquityRow.autoCloseDate = demoEquityRow.endDate + 1
    ∧ (∃ raw, demoWorld.readCsv (csvPath "/data" demoEquityRow.symbol) = some raw
        ∧ demoEquityRow.endDate = raw.sortIndex.lastDate)
    ∧ ingestEquities demoWorld.readCsv demoCalendar "/data"
          (discover (demoWorld.listdir "/data"))
        = ingestEquities demoWorld.readCsv (Calendar.mk []) "/data"
            (discover (demoWorld.listdir "/data")) :=
  auto_close_is_end_date_plus_one_day demoWorld.readCsv demoCalendar
    (Calendar.mk []) "/data" (discover (demoWorld.listdir "/data"))
    (0, demoEquityRow) (by decide)

/-- C4: when a discovered symbol's CSV fails to parse, the run still
completes (no exception escapes `ingest`: the result is `done`, with every
writer receiving its arguments), the failure is logged, no yielded
`(sid, frame)` pair sits at that symbol's position, and no equities row
carries that symbol. -/
theorem parse_failure_skips_symbol_and_continues (tframe : String) (w : World)
    (environ : List (String × String)) (cal : Calendar) (csvdir s : String)
    (henv : w.envCsvdir = some csvdir) (hne : csvdir ≠ "")
    (hdir : w.isDir csvdir = true)
    (hs : s ∈ discover (w.listdir csvdir))
    (hfail : w.readCsv (csvPath csvdir s) = none) :
    ingest tframe w environ cal
      = .done (ingestLogs w.readCsv csvdir (discover (w.listdir csvdir)))
          (tframe == "minute")
          (ingestBars w.readCsv cal csvdir (discover (w.listdir csvdir)))
          (ingestEquities w.readCsv cal csvdir (discover (w.listdir csvdir)))
          none none
    ∧ ("unable to parse " ++ s ++ ".csv")
        ∈ ingestLogs w.readCsv csvdir (discover (w.listdir csvdir))
    ∧ (∀ p ∈ ingestBars w.readCsv cal csvdir (discover (w.listdir csvdir)),
        (discover (w.listdir csvdir))[p.1]? ≠ some s)
    ∧ (∀ q ∈ ingestEquities w.readCsv cal csvdir (discover (w.listdir csvdir)),
        q.2.symbol ≠ s) := by
  have hpnone : processSymbol w.readCsv cal csvdir s = none := by
    unfold processSymbol
    rw [hfail]
  refine ⟨by simp [ingest, henv, hne, hdir], ?_, ?_, ?_⟩
  · unfold ingestLogs
    refine List.mem_append.mpr (Or.inr ?_)
    exact List.mem_filterMap.mpr ⟨s, hs, by rw [hfail]; rfl⟩
  · intro p hp hgs
    obtain ⟨t, af, m, hgt, hpt, _⟩ := mem_ingestBars hp
    rw [hgs] at hgt
    obtain rfl := Option.some.inj hgt
    rw [hpnone] at hpt
    cases hpt
  · intro q hq hqs
    have hmm : q.2.symbol
        ∈ (ingestEquities w.readCsv cal csvdir (discover (w.listdir csvdir))).map
            fun p => p.2.symbol :=
      List.mem_map.mpr ⟨q, hq, rfl⟩
    rw [ingestEquities_symbols] at hmm
    have hok := List.of_mem_filter hmm
    rw [hqs] at hok
    simp [hpnone] at hok

/-- C4 witness: `CCC.csv` is unparsable in the demo world, yet the demo run
completes, logs the failure, and writes nothing for `CCC`. -/
theorem parse_failure_skips_symbol_and_continues_witness :
    ingest "daily" demoWorld [] demoCalendar
      = .done (ingestLogs demoWorld.readCsv "/data" (discover (demoWorld.listdir "/data")))
          ("daily" == "minute")
          (ingestBars demoWorld.readCsv demoCalendar "/data"
            (discover (demoWorld.listdir "/data")))
          (ingestEquities demoWorld.readCsv demoCalendar "/data"
            (discover (demoWorld.listdir "/data")))
          none none
    ∧ ("unable to parse " ++ "CCC" ++ ".csv")
        ∈ ingestLogs demoWorld.readCsv "/data" (discover (demoWorld.listdir "/data"))
    ∧ (∀ p ∈ ingestBars demoWorld.readCsv demoCalendar "/data"
          (discover (demoWorld.listdir "/data")),
        (discover (demoWorld.listdir "/data"))[p.1]? ≠ some "CCC")
    ∧ (∀ q ∈ ingestEquities demoWorld.readCsv demoCalendar "/data"
          (discover (demoWorld.listdir "/data")),
        q.2.symbol ≠ "CCC") :=
  parse_failure_skips_symbol_and_continues "daily" demoWorld [] demoCalendar
    "/data" "CCC" rfl (by decide) (by decide) (by decide) (by decide)

/-- C5: when the `CSVDIR` environment variable is unset, or names anything
that is not a directory, `ingest` terminates via `sys.exit(1)` — a non-zero
exit recorded before any writer is reached (the `exit` result carries no
writer arguments, writers being invoked only on the `done` path). -/
theorem missing_or_invalid_csvdir_exits (tframe : String) (w : World)
    (environ : List (String × String)) (cal : Calendar)
    (h : w.envCsvdir = none ∨ ∃ p, w.envCsvdir = some p ∧ w.isDir p = false) :
    ∃ logs, ingest tframe w environ cal = .exit 1 logs := by
  rcases h with h | ⟨p, hp, hdir⟩
  · exact ⟨["CSVDIR environment variable is not set"], by simp [ingest, h]⟩
  · by_cases hp0 : p = ""
    · exact ⟨["CSVDIR environment variable is not set"], by simp [ingest, hp, hp0]⟩
    · exact ⟨[p ++ " is not a directory"], by simp [ingest, hp, hp0, hdir]⟩

/-- C5 witness: with no `CSVDIR` in the environment the run exits with
status 1. -/
theorem missing_or_invalid_csvdir_exits_witness :
    ∃ logs, ingest "daily" noEnvWorld [] (Calendar.mk []) = .exit 1 logs :=
  missing_or_invalid_csvdir_exits "daily" noEnvWorld [] (Calendar.mk [])
    (Or.inl rfl)

/-- C6 counterexample: discovery is not deduplication.  On the listing
`["A.csv", "A.csv.csv"]` (two distinct filenames, both ending in `.csv`)
the source's `item.split('.csv')[0]` yields `"A"` twice — the result is not
a set of distinct names — and the suffix-stripped name `"A.csv"` of
`A.csv.csv` never appears, because `split` cuts at the first occurrence of
`.csv`, not at the suffix. -/
theorem discovery_not_deduplicated_counterexample :
    discover ["A.csv", "A.csv.csv"] = ["A", "A"]
    ∧ ¬ (discover ["A.csv", "A.csv.csv"]).Nodup
    ∧ "A.csv" ∉ discover ["A.csv", "A.csv.csv"] := by decide

/-- C6 amended: symbol discovery returns the alphabetically sorted list —
duplicates retained — of the portions before the first `.csv` occurrence of
every filename ending in `.csv`, and sid assignment enumerates the positions
of that sorted sequence: the sids are exactly `0, 1, …, n-1` in order. -/
theorem discovery_sorted_and_sid_positions (listing : List String) :
    (discover listing).Sorted SymLe
    ∧ (discover listing).Perm ((listing.filter endsCsv).map stripCsv)
    ∧ ((discover listing).enum.map Prod.fst = List.range (discover listing).length) :=
  ⟨List.sorted_insertionSort SymLe _, List.perm_insertionSort SymLe _,
    List.enum_map_fst _⟩

/-- C7: when discovery finds zero symbols the run logs the error message and
continues: the result is `done` — the selected bar writer, the asset db
writer and the adjustment writer all still receive their (empty) arguments —
rather than a process exit. -/
theorem zero_symbols_logged_and_run_continues (tframe : String) (w : World)
    (environ : List (String × String)) (cal : Calendar) (csvdir : String)
    (henv : w.envCsvdir = some csvdir) (hne : csvdir ≠ "")
    (hdir : w.isDir csvdir = true)
    (hzero : discover (w.listdir csvdir) = []) :
    ingest tframe w environ cal
      = .done ["no <symbol>.csv files found in " ++ csvdir] (tframe == "minute")
          [] [] none none := by
  simp [ingest, henv, hne, hdir, hzero, ingestLogs, ingestBars, ingestEquities,
    ingestMetadata, finalizeMetadata]

/-- C7 witness: an existing but empty source directory yields a completed
run with the error logged and empty writer inputs. -/
theorem zero_symbols_logged_and_run_continues_witness :
    ingest "daily" emptyDirWorld [] (Calendar.mk [])
      = .done ["no <symbol>.csv files found in " ++ "/data"] ("daily" == "minute")
          [] [] none none :=
  zero_symbols_logged_and_run_continues "daily" emptyDirWorld [] (Calendar.mk [])
    "/data" rfl (by decide) (by decide) (by decide)

/-- C8: for a date carried by both the raw frame and the session list, the
aligned row is the raw row with every present cell passed through unchanged
and exactly the missing (NaN) cells replaced by `0.0`.  The duplicate-free
hypothesis is pandas' own `reindex` precondition. -/
theorem cells_passed_through_nan_zero_filled (f : Frame) (sessions : List Date)
    (d : Date) (arow : List Rat) (row : List (Option Rat))
    (_hnodup : (f.rows.map Prod.fst).Nodup)
    (hmem : (d, arow) ∈ reindexFill f sessions)
    (hrow : lookupRow f.rows d = some row) :
    arow = row.map (fun c => c.getD 0)
    ∧ (∀ (j : Nat) (v : Rat), row[j]? = some (some v) → arow[j]? = some v)
    ∧ (∀ j : Nat, row[j]? = some none → arow[j]? = some (0 : Rat)) := by
  obtain ⟨d', hd', heq⟩ := List.mem_map.mp hmem
  have hd2 : d' = d := congrArg Prod.fst heq
  subst hd2
  have harow : arow = row.map (fun c => c.getD 0) := by
    have h2 := congrArg Prod.snd heq
    rw [hrow] at h2
    exact h2.symm
  refine ⟨harow, ?_, ?_⟩
  · intro j v hj
    simp [harow, List.getElem?_map, hj]
  · intro j hj
    simp [harow, List.getElem?_map, hj]

/-- C8 witness: day 3 of the demo frame has raw row `[some 5, none]`; its
aligned row is `[5, 0]`: the present cell 5 unchanged, the NaN cell 0. -/
theorem cells_passed_through_nan_zero_filled_witness :
    ([5, 0] : List Rat) = [some (5 : Rat), none].map (fun c => c.getD 0)
    ∧ (∀ (j : Nat) (v : Rat),
        [some (5 : Rat), none][j]? = some (some v) → ([5, 0] : List Rat)[j]? = some v)
    ∧ (∀ j : Nat,
        [some (5 : Rat), none][j]? = some none → ([5, 0] : List Rat)[j]? = some (0 : Rat)) :=
  cells_passed_through_nan_zero_filled demoFrame [3] 3 [5, 0] [some 5, none]
    (by decide) (by decide) (by decide)

/-- C9: `ingest` ignores its `environ` parameter — the source directory is
read from the live process environment (`os.environ`, here `w.envCsvdir`) —
so two calls differing only in `environ` behave identically. -/
theorem ingest_ignores_environ_argument (tframe : String) (w : World)
    (e₁ e₂ : List (String × String)) (cal : Calendar) :
    ingest tframe w e₁ cal = ingest tframe w e₂ cal := rfl

/-- C10: the sid sequence of the pairs handed to the bar writer is strictly
increasing (so no sid repeats), the equities table's sid index likewise, the
two sid sequences coincide, and every emitted pair sits at the position of
its symbol in the discovery sequence with a processed (parsed, non-empty)
symbol there — skipped symbols leave gaps instead of shifting later sids. -/
theorem sids_strictly_increasing_no_reuse (readCsv : String → Option Frame)
    (cal : Calendar) (csvdir : String) (symbols : List String) :
    ((ingestBars readCsv cal csvdir symbols).map Prod.fst).Pairwise (· < ·)
    ∧ ((ingestEquities readCsv cal csvdir symbols).map Prod.fst).Pairwise (· < ·)
    ∧ (ingestBars readCsv cal csvdir symbols).map Prod.fst
        = (ingestEquities readCsv cal csvdir symbols).map Prod.fst
    ∧ ∀ p ∈ ingestBars readCsv cal csvdir symbols,
        ∃ s af m, symbols[p.1]? = some s
          ∧ processSymbol readCsv cal csvdir s = some (af, m) ∧ p.2 = af := by
  refine ⟨?_, ?_, ?_, fun p hp => mem_ingestBars hp⟩
  · rw [ingestBars_map_fst]
    exact sid_pairwise readCsv cal csvdir symbols
  · rw [ingestEquities_map_fst]
    exact sid_pairwise readCsv cal csvdir symbols
  · rw [ingestBars_map_fst, ingestEquities_map_fst]

end Csvdir
